import Mathlib

/-!
# Verification of the yt-courses progress-tracking model

Shallow embedding of the progress-tracking and aggregation subsystem of the
yt-courses repository (client/src/contexts/CoursesContext — two revisions,
client/src/lib/db.ts — two revisions, client/src/components/YouTubePlayer.tsx
— two revisions, and the Home page sort effect).

Modelling conventions:
* ISO-8601 timestamp strings are compared in the source only through
  `new Date(s).getTime()`; we embed a timestamp directly as its epoch value
  in `ℤ`.
* JavaScript numbers used for playback positions and durations are embedded
  as `ℚ`; `Math.round` on a non-negative rational coincides with Mathlib's
  `round` (round-half-up, `round x = ⌊x + 1/2⌋`).
* The IndexedDB object stores are embedded as lists of records; `put`
  (insert-or-replace at the key-path key) removes any record with the same
  key and prepends the new one.
* A store operation that may fail (store unavailable) is parameterised by an
  explicit failure flag and returns `Except Unit`; a thrown exception in a
  `try` block skips the rest of the block, and a `catch` that only logs makes
  the surrounding promise resolve normally.
-/

/-- Embedded `Video` (types.ts): only the fields the progress model reads. -/
structure Video where
  id : String
  duration : ℚ
  deriving DecidableEq, Repr

/-- Embedded `Course` (types.ts): only the fields the progress model reads.
`lastWatched` is optional exactly as in the source. -/
structure Course where
  id : String
  title : String
  videos : List Video
  createdAt : ℤ
  lastWatched : Option ℤ
  deriving DecidableEq, Repr

/-- Embedded `VideoProgress` record (types.ts). -/
structure VideoProgress where
  videoId : String
  courseId : String
  currentTime : ℚ
  duration : ℚ
  completed : Bool
  lastWatched : ℤ
  deriving DecidableEq, Repr

/-- Embedded `VideoStatus` enum (types.ts). -/
inductive VideoStatus where
  | notStarted
  | inProgress
  | completed
  deriving DecidableEq, Repr

/-- The derived per-course progress block of `CourseWithProgress` (types.ts). -/
structure CourseProgress where
  completedVideos : ℕ
  totalVideos : ℕ
  percentage : ℤ
  currentVideoId : Option String
  deriving DecidableEq, Repr

/-- Embedded `CourseWithProgress` (types.ts): a course plus its derived
progress block. -/
structure CourseWithProgress where
  course : Course
  progress : CourseProgress
  deriving DecidableEq, Repr

/-- The derived per-video view of `VideoWithProgress` (types.ts): status plus
the optional progress percentage and resume position. -/
structure VideoView where
  status : VideoStatus
  progress : Option ℤ
  currentTime : Option ℚ
  deriving DecidableEq, Repr

/- ### Durable store (db.ts) -/

/-- IndexedDB `put` on the first-revision `videoProgress` store, whose
keyPath is `videoId` alone (db.ts rev 1, `initDB`): insert-or-replace at the
`videoId` key. -/
def dbPutProgressByVideoId (store : List VideoProgress) (p : VideoProgress) :
    List VideoProgress :=
  p :: store.filter (fun q => q.videoId ≠ p.videoId)

/-- IndexedDB `put` on the second-revision `videoProgress` store, whose
keyPath is the composite `[videoId, courseId]` (db.ts rev 2, `initDB`):
insert-or-replace at the pair key. -/
def dbPutProgressByPair (store : List VideoProgress) (p : VideoProgress) :
    List VideoProgress :=
  p :: store.filter (fun q => ¬(q.videoId = p.videoId ∧ q.courseId = p.courseId))

/-- IndexedDB `get` by the `videoId` key (db.ts rev 1). -/
def dbGetProgressByVideoId (store : List VideoProgress) (videoId : String) :
    Option VideoProgress :=
  store.find? (fun q => q.videoId = videoId)

/-- Embeds db.ts rev 1 `updateVideoProgress`: looks the key up, then `put`s
either `{...existingProgress, ...progress, lastWatched: now}` or
`{...progress, lastWatched: now}`; since the spread of the full incoming
record overwrites every field of the existing one, both branches store the
incoming record with `lastWatched` replaced by the current time. -/
def updateVideoProgressDb1 (store : List VideoProgress) (p : VideoProgress)
    (now : ℤ) : List VideoProgress :=
  match dbGetProgressByVideoId store p.videoId with
  | some _ => dbPutProgressByVideoId store { p with lastWatched := now }
  | none => dbPutProgressByVideoId store { p with lastWatched := now }

/-- Embeds db.ts rev 1 `getVideoProgress(videoId, courseId)`: the lookup is
`db.get('videoProgress', videoId)` — the `courseId` argument is unused. -/
def getVideoProgressDb1 (store : List VideoProgress) (videoId : String)
    (courseId : String) : Option VideoProgress :=
  dbGetProgressByVideoId store videoId

/-- Embeds db.ts rev 1 `deleteCourse`'s progress cleanup: it collects the
records whose `courseId` matches (the `by-course` index) and deletes each by
its `videoId` key. -/
def deleteCourseProgressDb1 (store : List VideoProgress) (courseId : String) :
    List VideoProgress :=
  let keys := (store.filter (fun q => q.courseId = courseId)).map (·.videoId)
  store.filter (fun q => ¬ q.videoId ∈ keys)

/-- The first-revision store invariant induced by the `videoId` keyPath:
record keys are pairwise distinct. -/
def storeKeyedByVideoId (store : List VideoProgress) : Prop :=
  (store.map (·.videoId)).Nodup

instance : DecidablePred storeKeyedByVideoId := fun store =>
  inferInstanceAs (Decidable ((store.map (fun q : VideoProgress => q.videoId)).Nodup))

/-- The invariant the Aggregator depends on: a given `(videoId, courseId)`
pair has at most one `VideoProgress` record in the store. -/
def atMostOnePerPair (store : List VideoProgress) : Prop :=
  ∀ v c : String,
    (store.filter (fun q => q.videoId = v ∧ q.courseId = c)).length ≤ 1

/-- A store mutation reaching the `videoProgress` table: an upsert through
`updateVideoProgress` or a cascading delete through `deleteCourse`. -/
inductive DbOp where
  | upsert (p : VideoProgress) (now : ℤ)
  | deleteCourse (courseId : String)

/-- Runs one store mutation on the first-revision store. -/
def applyDbOp (store : List VideoProgress) : DbOp → List VideoProgress
  | .upsert p now => updateVideoProgressDb1 store p now
  | .deleteCourse cid => deleteCourseProgressDb1 store cid

/-- Runs a sequence of store mutations on the first-revision store. -/
def applyDbOps (store : List VideoProgress) (ops : List DbOp) :
    List VideoProgress :=
  ops.foldl applyDbOp store

/-- Embeds db.ts rev 2 `updateVideoProgress`: a bare composite-key `put` of
the incoming record. -/
def updateVideoProgressDb2 (store : List VideoProgress) (p : VideoProgress) :
    List VideoProgress :=
  dbPutProgressByPair store p

/-- Embeds db.ts rev 2 `deleteCourse`'s progress cleanup: it collects the
records whose `courseId` matches (the `by-course` index) and deletes each by
its composite `[videoId, courseId]` key. -/
def deleteCourseProgressDb2 (store : List VideoProgress) (courseId : String) :
    List VideoProgress :=
  let keys := (store.filter (fun q => q.courseId = courseId)).map
    (fun q => (q.videoId, q.courseId))
  store.filter (fun q => ¬ (q.videoId, q.courseId) ∈ keys)

/-- The second-revision store invariant induced by the composite
`[videoId, courseId]` keyPath: record key pairs are pairwise distinct. -/
def storeKeyedByPair (store : List VideoProgress) : Prop :=
  (store.map (fun q => (q.videoId, q.courseId))).Nodup

instance : DecidablePred storeKeyedByPair := fun store =>
  inferInstanceAs
    (Decidable ((store.map (fun q : VideoProgress => (q.videoId, q.courseId))).Nodup))

/-- Runs one store mutation on the second-revision store; the rev-2 db
upsert stores the record as given (its `lastWatched` was set by the caller), so
the operation's timestamp argument is unused there. -/
def applyDbOp2 (store : List VideoProgress) : DbOp → List VideoProgress
  | .upsert p _ => updateVideoProgressDb2 store p
  | .deleteCourse cid => deleteCourseProgressDb2 store cid

/-- Runs a sequence of store mutations on the second-revision store. -/
def applyDbOps2 (store : List VideoProgress) (ops : List DbOp) :
    List VideoProgress :=
  ops.foldl applyDbOp2 store

/-- IndexedDB `put` on the `courses` store (keyPath `id`, both db.ts
revisions): insert-or-replace at the `id` key; this is what both
`db.addCourse` and `db.updateCourse` call. -/
def dbPutCourse (store : List Course) (c : Course) : List Course :=
  c :: store.filter (fun q => q.id ≠ c.id)

/-- Embeds `db.getCourse` (both db.ts revisions). -/
def dbGetCourse (store : List Course) (id : String) : Option Course :=
  store.find? (fun q => q.id = id)

/- ### Progress Aggregator (CoursesContext, two revisions) -/

/-- Embeds the recency relation of the sort comparator
`(a, b) => new Date(b.lastWatched).getTime() - new Date(a.lastWatched).getTime()`
used on a course's progress records (CoursesContext rev 2, `refreshCourses`):
`a` sorts no later than `b` exactly when the comparator value
`b.lastWatched - a.lastWatched` is `≤ 0`. -/
def progMoreRecent (a b : VideoProgress) : Prop :=
  b.lastWatched - a.lastWatched ≤ 0

instance : DecidableRel progMoreRecent := fun a b =>
  inferInstanceAs (Decidable (b.lastWatched - a.lastWatched ≤ 0))

instance : IsTotal VideoProgress progMoreRecent :=
  ⟨fun a b => by
    unfold progMoreRecent
    omega⟩

instance : IsTrans VideoProgress progMoreRecent :=
  ⟨fun a b c hab hbc => by
    unfold progMoreRecent at *
    omega⟩

/-- Embeds `[...courseProgress].sort((a, b) => ...)` — a comparison sort by
the recency comparator (CoursesContext rev 2, `refreshCourses`). -/
def sortProgressByRecency (l : List VideoProgress) : List VideoProgress :=
  l.insertionSort progMoreRecent

/-- Embeds the per-course body of `refreshCourses` (CoursesContext rev 2,
also the fallback path of its `getCourse`): grouping `allProgress` by
`courseId` is order-preserving, hence embedded as a filter; `completedVideos`
counts the completed records; `percentage` rounds `completed/total × 100`
when `totalVideos > 0` and is `0` otherwise; `currentVideoId` is the
`videoId` of the head of the recency-sorted records when any exist. -/
def refreshCourseProgress (course : Course) (allProgress : List VideoProgress) :
    CourseWithProgress :=
  let courseProgress := allProgress.filter (fun p => p.courseId = course.id)
  let totalVideos := course.videos.length
  let completedVideos := (courseProgress.filter (fun p => p.completed)).length
  let percentage : ℤ :=
    if totalVideos > 0 then round (((completedVideos : ℚ) / (totalVideos : ℚ)) * 100)
    else 0
  let currentVideoId : Option String :=
    match sortProgressByRecency courseProgress with
    | [] => none
    | p :: _ => some p.videoId
  ⟨course, ⟨completedVideos, totalVideos, percentage, currentVideoId⟩⟩

/-- Embeds the per-course body of `loadCourses` (CoursesContext rev 1): the
same counts and percentage, but `currentVideoId` is found by scanning
`course.videos` in order for the first video whose progress record is absent
or not completed, and only while `percentage < 100`. -/
def loadCourseProgress (course : Course) (progressData : List VideoProgress) :
    CourseWithProgress :=
  let courseProgress := progressData.filter (fun p => p.courseId = course.id)
  let completedVideos := (courseProgress.filter (fun p => p.completed)).length
  let percentage : ℤ :=
    if course.videos.length > 0 then
      round (((completedVideos : ℚ) / (course.videos.length : ℚ)) * 100)
    else 0
  let currentVideoId : Option String :=
    if percentage < 100 then
      (course.videos.find? (fun video =>
        match courseProgress.find? (fun p => p.videoId = video.id) with
        | none => true
        | some vp => !vp.completed)).map (fun v => v.id)
    else none
  ⟨course, ⟨completedVideos, course.videos.length, percentage, currentVideoId⟩⟩

/-- Embeds the status computation of `getVideo` (CoursesContext rev 2, lines
498–507; rev 1 computes the same status and percentage): no record →
NOT_STARTED; completed record → COMPLETED with progress 100; a record with
`currentTime > 0` → IN_PROGRESS with progress
`Math.round((currentTime / duration) * 100)` and the record's `currentTime`. -/
def computeVideoStatus (progress : Option VideoProgress) : VideoView :=
  match progress with
  | none => ⟨.notStarted, none, none⟩
  | some p =>
    if p.completed then ⟨.completed, some 100, none⟩
    else if p.currentTime > 0 then
      ⟨.inProgress, some (round ((p.currentTime / p.duration) * 100)), some p.currentTime⟩
    else ⟨.notStarted, none, none⟩

/-- Embeds the course sort comparator of the Home page sort effect
(Home.tsx lines 15–33): both timestamps present → `b.lastWatched - a.lastWatched`;
only `a` → `-1`; only `b` → `1`; neither → `b.createdAt - a.createdAt`. -/
def homeCourseCompare (a b : Course) : ℤ :=
  match a.lastWatched, b.lastWatched with
  | some ta, some tb => tb - ta
  | some _, none => -1
  | none, some _ => 1
  | none, none => b.createdAt - a.createdAt

/-- Embeds the course sort comparator of `refreshCourses` (CoursesContext
rev 2, lines 418–426): neither timestamp → `0`; only `b` → `-1` (a first);
only `a` → `1`; both → `b.lastWatched - a.lastWatched`. -/
def refreshCourseCompare (a b : Course) : ℤ :=
  match a.lastWatched, b.lastWatched with
  | none, none => 0
  | none, some _ => 1
  | some _, none => -1
  | some ta, some tb => tb - ta

/-- The `refreshCourses` course sort as a comparison sort by its comparator. -/
def refreshSortCourses (l : List Course) : List Course :=
  l.insertionSort (fun a b => refreshCourseCompare a b ≤ 0)

/- ### Playback progress records (YouTubePlayer, two revisions) -/

/-- Embeds the record built by `saveProgress` (YouTubePlayer rev 1, lines
202–225), called from the 5-second tracking interval and on pause:
completed when fewer than 10 seconds remain or 95% is watched. -/
def saveProgressRecord (videoId courseId : String) (currentPlayerTime d : ℚ)
    (now : ℤ) : VideoProgress :=
  { videoId := videoId
    courseId := courseId
    currentTime := currentPlayerTime
    duration := d
    completed := decide (currentPlayerTime ≥ d - 10) ||
      decide (currentPlayerTime / d ≥ 95 / 100)
    lastWatched := now }

/-- Embeds the record built by the 5-second interval tick (YouTubePlayer
rev 2, lines 522–540): completed exactly when
`currentTime >= videoDuration * 0.95`. -/
def tickProgressRecord (videoId courseId : String) (currentTime videoDuration : ℚ)
    (now : ℤ) : VideoProgress :=
  { videoId := videoId
    courseId := courseId
    currentTime := currentTime
    duration := videoDuration
    completed := decide (currentTime ≥ videoDuration * (95 / 100))
    lastWatched := now }

/- ### Context-level mutating operations (CoursesContext, two revisions) -/

/-- The application state touched by the mutating context operations. -/
structure AppState where
  progressStore : List VideoProgress
  courseStore : List Course
  deriving DecidableEq, Repr

/-- The store upsert behind `applyProgressUpdate`, with an explicit
availability flag: when the store is unavailable the `put` raises and leaves
the store untouched, otherwise it applies the composite-key `put`
(db.ts rev 2 `updateVideoProgress`). -/
def dbUpdateVideoProgressE (upsertFails : Bool) (store : List VideoProgress)
    (p : VideoProgress) : Except Unit (List VideoProgress) :=
  if upsertFails then .error () else .ok (dbPutProgressByPair store p)

/-- Embeds the context `updateVideoProgress` (CoursesContext rev 1 lines
261–278 and rev 2 lines 518–537, identical control flow): inside a `try`, it
upserts the record, then reads the parent course and `put`s it back with
`lastWatched` set to the current time; the `catch` only logs, so the promise
resolves normally (`.ok ()`) whether or not the upsert failed. -/
def updateVideoProgressCtx (upsertFails : Bool) (p : VideoProgress) (now : ℤ)
    (s : AppState) : AppState × Except Unit Unit :=
  match dbUpdateVideoProgressE upsertFails s.progressStore p with
  | .error _ => (s, .ok ())
  | .ok store1 =>
    let s1 : AppState := { s with progressStore := store1 }
    match dbGetCourse s1.courseStore p.courseId with
    | some course =>
      ({ s1 with courseStore := dbPutCourse s1.courseStore { course with lastWatched := some now } },
        .ok ())
    | none => (s1, .ok ())

/-- Embeds `addCourse` (CoursesContext rev 1, lines 184–202): it calls
`db.addCourse` — an IndexedDB `put`, insert-or-replace — directly and
returns `true`; the `catch` branch returning `false` is unreachable without
a store failure. -/
def addCourseCtx1 (store : List Course) (course : Course) :
    List Course × Bool :=
  (dbPutCourse store course, true)

/-- Embeds `addCourse` (CoursesContext rev 2, lines 430–449): it first looks
the id up and returns `false` leaving the store untouched when a course with
that id exists; otherwise it `put`s the course and returns `true`. -/
def addCourseCtx2 (store : List Course) (course : Course) :
    List Course × Bool :=
  match dbGetCourse store course.id with
  | some _ => (store, false)
  | none => (dbPutCourse store course, true)

/- ### Spec-side formulations (from spec.md, for refinement comparison) -/

/-- Spec formulation (spec.md §4.1): the canonical 95%-watched completion
rule, `currentTime ≥ 0.95 × duration`. -/
def specCompleted95 (currentTime duration : ℚ) : Prop :=
  currentTime ≥ (95 / 100) * duration

instance (ct d : ℚ) : Decidable (specCompleted95 ct d) :=
  inferInstanceAs (Decidable (ct ≥ (95 / 100) * d))

/-- Spec formulation (spec.md §4.1): `percentage = round(100 ×
completedVideos / totalVideos)`, `0` when `totalVideos = 0`. -/
def specPercentage (completedVideos totalVideos : ℕ) : ℤ :=
  if totalVideos = 0 then 0
  else round ((100 * (completedVideos : ℚ)) / (totalVideos : ℚ))

/-- Spec formulation (spec.md §4.1): in-progress percentage
`round(100 × currentTime / duration)` clamped to `[0, 100]`. -/
def specProgressClamped (currentTime duration : ℚ) : ℤ :=
  max 0 (min 100 (round ((100 * currentTime) / duration)))

/-- Spec formulation (spec.md §4.1 `listCoursesSortedByRecency`): course `a`
precedes course `b` when `a` has a timestamp and `b` has none, or both have
one and `a`'s is more recent, or neither has one and `a` was created more
recently. -/
def specCoursePrecedes (a b : Course) : Prop :=
  match a.lastWatched, b.lastWatched with
  | some _, none => True
  | none, some _ => False
  | some ta, some tb => tb < ta
  | none, none => b.createdAt < a.createdAt

instance (a b : Course) : Decidable (specCoursePrecedes a b) := by
  unfold specCoursePrecedes
  rcases a.lastWatched with _ | ta <;> rcases b.lastWatched with _ | tb <;>
    infer_instance

/- ### Helper lemmas -/

/-- A duplicate-free list all of whose elements are equal has at most one
element. -/
lemma length_le_one_of_nodup_of_const {α : Type} {l : List α} {v : α}
    (hnd : l.Nodup) (hall : ∀ x ∈ l, x = v) : l.length ≤ 1 := by
  match l with
  | [] => simp
  | [a] => simp
  | a :: b :: t =>
    exfalso
    have ha : a = v := hall a (by simp)
    have hb : b = v := hall b (by simp)
    rcases List.nodup_cons.1 hnd with ⟨hnotmem, _⟩
    exact hnotmem (by simp [ha, hb])

/-- An IndexedDB `put` on the videoId-keyed store preserves the key
invariant. -/
lemma storeKeyedByVideoId_put {store : List VideoProgress} {p : VideoProgress}
    (h : storeKeyedByVideoId store) :
    storeKeyedByVideoId (dbPutProgressByVideoId store p) := by
  unfold storeKeyedByVideoId dbPutProgressByVideoId at *
  rw [List.map_cons, List.nodup_cons]
  refine ⟨?_, h.sublist ((List.filter_sublist store).map _)⟩
  intro hmem
  rcases List.mem_map.1 hmem with ⟨q, hq, hqid⟩
  rcases List.mem_filter.1 hq with ⟨_, hne⟩
  simp only [decide_eq_true_eq] at hne
  exact hne hqid

/-- The rev-1 `updateVideoProgress` preserves the key invariant. -/
lemma storeKeyedByVideoId_update {store : List VideoProgress}
    {p : VideoProgress} {now : ℤ} (h : storeKeyedByVideoId store) :
    storeKeyedByVideoId (updateVideoProgressDb1 store p now) := by
  unfold updateVideoProgressDb1
  cases dbGetProgressByVideoId store p.videoId <;>
    exact storeKeyedByVideoId_put h

/-- The rev-1 `deleteCourse` progress cleanup preserves the key invariant. -/
lemma storeKeyedByVideoId_delete {store : List VideoProgress} {cid : String}
    (h : storeKeyedByVideoId store) :
    storeKeyedByVideoId (deleteCourseProgressDb1 store cid) := by
  unfold storeKeyedByVideoId deleteCourseProgressDb1 at *
  exact h.sublist ((List.filter_sublist store).map _)

/-- Pairwise-distinct `videoId` keys give at most one record per
`(videoId, courseId)` pair. -/
lemma atMostOnePerPair_of_keyed {store : List VideoProgress}
    (h : storeKeyedByVideoId store) : atMostOnePerPair store := by
  intro v c
  set l := store.filter (fun q => q.videoId = v ∧ q.courseId = c) with hl
  have hsub : (l.map (fun q => q.videoId)).Sublist
      (store.map (fun q => q.videoId)) := (List.filter_sublist store).map _
  have hnd : (l.map (fun q => q.videoId)).Nodup := h.sublist hsub
  have hall : ∀ x ∈ l.map (fun q => q.videoId), x = v := by
    intro x hx
    rcases List.mem_map.1 hx with ⟨q, hq, hqid⟩
    rcases List.mem_filter.1 hq with ⟨_, hqv⟩
    simp only [decide_eq_true_eq] at hqv
    exact hqid ▸ hqv.1
  have := length_le_one_of_nodup_of_const hnd hall
  simpa using this

/-- Every single store mutation preserves the key invariant. -/
lemma storeKeyedByVideoId_applyDbOp {store : List VideoProgress} {op : DbOp}
    (h : storeKeyedByVideoId store) : storeKeyedByVideoId (applyDbOp store op) := by
  cases op with
  | upsert p now => exact storeKeyedByVideoId_update h
  | deleteCourse cid => exact storeKeyedByVideoId_delete h

/-- Every sequence of store mutations preserves the key invariant. -/
lemma storeKeyedByVideoId_applyDbOps {ops : List DbOp}
    {store : List VideoProgress} (h : storeKeyedByVideoId store) :
    storeKeyedByVideoId (applyDbOps store ops) := by
  induction ops generalizing store with
  | nil => exact h
  | cons op rest ih => exact ih (storeKeyedByVideoId_applyDbOp h)

/-- An IndexedDB `put` on the composite-key store preserves the pair-key
invariant. -/
lemma storeKeyedByPair_put {store : List VideoProgress} {p : VideoProgress}
    (h : storeKeyedByPair store) :
    storeKeyedByPair (dbPutProgressByPair store p) := by
  unfold storeKeyedByPair dbPutProgressByPair at *
  rw [List.map_cons, List.nodup_cons]
  refine ⟨?_, h.sublist ((List.filter_sublist store).map _)⟩
  intro hmem
  rcases List.mem_map.1 hmem with ⟨q, hq, hqid⟩
  rcases List.mem_filter.1 hq with ⟨_, hne⟩
  simp only [decide_eq_true_eq] at hne
  exact hne ⟨congrArg Prod.fst hqid, congrArg Prod.snd hqid⟩

/-- Every single rev-2 store mutation preserves the pair-key invariant. -/
lemma storeKeyedByPair_applyDbOp2 {store : List VideoProgress} {op : DbOp}
    (h : storeKeyedByPair store) : storeKeyedByPair (applyDbOp2 store op) := by
  cases op with
  | upsert p now => exact storeKeyedByPair_put h
  | deleteCourse cid =>
    show storeKeyedByPair (deleteCourseProgressDb2 store cid)
    unfold storeKeyedByPair deleteCourseProgressDb2 at *
    exact h.sublist ((List.filter_sublist store).map _)

/-- Every sequence of rev-2 store mutations preserves the pair-key
invariant. -/
lemma storeKeyedByPair_applyDbOps2 {ops : List DbOp}
    {store : List VideoProgress} (h : storeKeyedByPair store) :
    storeKeyedByPair (applyDbOps2 store ops) := by
  induction ops generalizing store with
  | nil => exact h
  | cons op rest ih => exact ih (storeKeyedByPair_applyDbOp2 h)

/-- Pairwise-distinct `(videoId, courseId)` keys give at most one record per
pair. -/
lemma atMostOnePerPair_of_pairKeyed {store : List VideoProgress}
    (h : storeKeyedByPair store) : atMostOnePerPair store := by
  intro v c
  set l := store.filter (fun q => q.videoId = v ∧ q.courseId = c) with hl
  have hsub : (l.map (fun q => (q.videoId, q.courseId))).Sublist
      (store.map (fun q => (q.videoId, q.courseId))) :=
    (List.filter_sublist store).map _
  have hnd : (l.map (fun q => (q.videoId, q.courseId))).Nodup := h.sublist hsub
  have hall : ∀ x ∈ l.map (fun q => (q.videoId, q.courseId)), x = (v, c) := by
    intro x hx
    rcases List.mem_map.1 hx with ⟨q, hq, hqid⟩
    rcases List.mem_filter.1 hq with ⟨_, hqv⟩
    simp only [decide_eq_true_eq] at hqv
    rw [← hqid, hqv.1, hqv.2]
  have := length_le_one_of_nodup_of_const hnd hall
  simpa using this

/-- The head of the recency-sorted progress list is a record of the list
with a maximal `lastWatched` timestamp. -/
lemma sortProgressByRecency_head_max {l t : List VideoProgress}
    {p : VideoProgress} (h : sortProgressByRecency l = p :: t) :
    p ∈ l ∧ ∀ q ∈ l, q.lastWatched ≤ p.lastWatched := by
  have hsorted : List.Sorted progMoreRecent (sortProgressByRecency l) :=
    List.sorted_insertionSort progMoreRecent l
  rw [h] at hsorted
  have hmem : p ∈ l := by
    have : p ∈ sortProgressByRecency l := by rw [h]; simp
    exact (List.mem_insertionSort progMoreRecent).1 this
  refine ⟨hmem, fun q hq => ?_⟩
  have hq2 : q ∈ p :: t := by
    have : q ∈ sortProgressByRecency l :=
      (List.mem_insertionSort progMoreRecent).2 hq
    rwa [h] at this
  rcases List.mem_cons.1 hq2 with rfl | hqt
  · exact le_refl _
  · have := List.rel_of_sorted_cons hsorted q hqt
    unfold progMoreRecent at this
    omega

/- ### Claim theorems -/

/-- C9: every sequence of store operations (upserts via
`updateVideoProgress`, cascading deletes via `deleteCourse`) preserves the
invariant that a given `(videoId, courseId)` pair has at most one
`VideoProgress` record in the store. -/
theorem store_ops_preserve_atMostOnePerPair :
    ∀ (ops : List DbOp) (store : List VideoProgress),
      (storeKeyedByVideoId store →
        storeKeyedByVideoId (applyDbOps store ops) ∧
          atMostOnePerPair (applyDbOps store ops)) ∧
      (storeKeyedByPair store →
        storeKeyedByPair (applyDbOps2 store ops) ∧
          atMostOnePerPair (applyDbOps2 store ops)) := by
  intro ops store
  constructor
  · intro h
    have h2 := @storeKeyedByVideoId_applyDbOps ops store h
    exact ⟨h2, atMostOnePerPair_of_keyed h2⟩
  · intro h
    have h2 := @storeKeyedByPair_applyDbOps2 ops store h
    exact ⟨h2, atMostOnePerPair_of_pairKeyed h2⟩

/-- Concrete record used to instantiate the C9 theorem. -/
def c9rec : VideoProgress := ⟨"v1", "c1", 10, 100, false, 5⟩

/-- Witness for C9: running an upsert followed by a course delete on the
empty store keeps at most one record per pair, in both store revisions. -/
theorem store_ops_preserve_atMostOnePerPair_witness :
    (storeKeyedByVideoId
        (applyDbOps [] [DbOp.upsert c9rec 7, DbOp.deleteCourse "c1"]) ∧
      atMostOnePerPair
        (applyDbOps [] [DbOp.upsert c9rec 7, DbOp.deleteCourse "c1"])) ∧
    (storeKeyedByPair
        (applyDbOps2 [] [DbOp.upsert c9rec 7, DbOp.deleteCourse "c1"]) ∧
      atMostOnePerPair
        (applyDbOps2 [] [DbOp.upsert c9rec 7, DbOp.deleteCourse "c1"])) :=
  ⟨(store_ops_preserve_atMostOnePerPair
      [DbOp.upsert c9rec 7, DbOp.deleteCourse "c1"] []).1 (by decide),
    (store_ops_preserve_atMostOnePerPair
      [DbOp.upsert c9rec 7, DbOp.deleteCourse "c1"] []).2 (by decide)⟩

/-- C10: in the store revision keyed by `videoId` alone,
`getVideoProgress(videoId, courseId)` is independent of the `courseId`
argument, and a record upserted under one course is returned when the same
video is queried under any course. -/
theorem getVideoProgressDb1_ignores_courseId :
    (∀ (store : List VideoProgress) (v c c' : String),
      getVideoProgressDb1 store v c = getVideoProgressDb1 store v c') ∧
    (∀ (store : List VideoProgress) (p : VideoProgress) (now : ℤ) (c : String),
      getVideoProgressDb1 (updateVideoProgressDb1 store p now) p.videoId c =
        some { p with lastWatched := now }) := by
  constructor
  · intro store v c c'
    rfl
  · intro store p now c
    unfold getVideoProgressDb1 updateVideoProgressDb1 dbGetProgressByVideoId
      dbPutProgressByVideoId
    cases store.find? (fun q => q.videoId = p.videoId) <;> simp

/-- C1 (amended): the `refreshCourses` aggregation returns `currentVideoId`
of a progress record with a maximal `lastWatched` among the course's
records, and no `currentVideoId` when the course has no records. -/
theorem refresh_currentVideoId_most_recent :
    ∀ (course : Course) (allProgress : List VideoProgress),
      (allProgress.filter (fun p => p.courseId = course.id) = [] →
        (refreshCourseProgress course allProgress).progress.currentVideoId = none) ∧
      (allProgress.filter (fun p => p.courseId = course.id) ≠ [] →
        ∃ p ∈ allProgress.filter (fun p => p.courseId = course.id),
          (refreshCourseProgress course allProgress).progress.currentVideoId =
            some p.videoId ∧
          ∀ q ∈ allProgress.filter (fun p => p.courseId = course.id),
            q.lastWatched ≤ p.lastWatched) := by
  intro course allProgress
  constructor
  · intro hnil
    simp only [refreshCourseProgress, hnil]
    rfl
  · intro hne
    obtain ⟨p, t, hpt⟩ : ∃ p t,
        sortProgressByRecency
          (allProgress.filter (fun p => p.courseId = course.id)) = p :: t := by
      cases hsl : sortProgressByRecency
          (allProgress.filter (fun p => p.courseId = course.id)) with
      | nil =>
        exfalso
        apply hne
        have hperm := List.perm_insertionSort progMoreRecent
          (allProgress.filter (fun p => p.courseId = course.id))
        rw [show (allProgress.filter (fun p => p.courseId = course.id)).insertionSort
            progMoreRecent = sortProgressByRecency
            (allProgress.filter (fun p => p.courseId = course.id)) from rfl,
          hsl] at hperm
        exact hperm.symm.eq_nil
      | cons p t => exact ⟨p, t, rfl⟩
    obtain ⟨hpmem, hmax⟩ := sortProgressByRecency_head_max hpt
    refine ⟨p, hpmem, ?_, hmax⟩
    simp only [refreshCourseProgress, hpt]

/-- Concrete course used to instantiate the C1 theorems. -/
def c1course : Course := ⟨"c1", "T", [⟨"v1", 100⟩], 0, none⟩

/-- Concrete progress record used to instantiate the C1 theorems. -/
def c1rec : VideoProgress := ⟨"v1", "c1", 10, 100, false, 5⟩

/-- Witness for the amended C1 theorem at a one-record store. -/
theorem refresh_currentVideoId_most_recent_witness :
    ∃ p ∈ [c1rec].filter (fun p => p.courseId = c1course.id),
      (refreshCourseProgress c1course [c1rec]).progress.currentVideoId =
        some p.videoId ∧
      ∀ q ∈ [c1rec].filter (fun p => p.courseId = c1course.id),
        q.lastWatched ≤ p.lastWatched :=
  (refresh_currentVideoId_most_recent c1course [c1rec]).2
    (by simp [c1rec, c1course])

/-- Counterexample to C1 as stated: the `loadCourses` aggregation, on a
course with one video and an empty progress store, returns `currentVideoId =
some "v1"` (the first incomplete video) although the course has no progress
records, where the claim requires `none`. -/
theorem loadCourses_currentVideoId_without_records :
    (loadCourseProgress c1course []).progress.currentVideoId = some "v1" ∧
      some "v1" ≠ (none : Option String) := by
  constructor
  · simp [loadCourseProgress, c1course]
  · simp

/-- The percentage expression both aggregation revisions compute coincides
with the spec formula. -/
lemma codePercentage_eq_spec (c t : ℕ) :
    (if t > 0 then round (((c : ℚ) / (t : ℚ)) * 100) else 0) =
      specPercentage c t := by
  unfold specPercentage
  rcases Nat.eq_zero_or_pos t with ht | ht
  · subst ht
    simp
  · rw [if_pos ht, if_neg (Nat.pos_iff_ne_zero.1 ht)]
    have harg : ((c : ℚ) / (t : ℚ)) * 100 = (100 * (c : ℚ)) / (t : ℚ) := by
      ring
    rw [harg]

/-- C3: the derived completion percentage equals
`round(100 × completedVideos / totalVideos)` and equals `0` when
`totalVideos = 0`, in both aggregation revisions. -/
theorem percentage_refines_spec :
    (∀ (course : Course) (allProgress : List VideoProgress),
      (refreshCourseProgress course allProgress).progress.percentage =
        specPercentage
          (refreshCourseProgress course allProgress).progress.completedVideos
          (refreshCourseProgress course allProgress).progress.totalVideos) ∧
    (∀ (course : Course) (progressData : List VideoProgress),
      (loadCourseProgress course progressData).progress.percentage =
        specPercentage
          (loadCourseProgress course progressData).progress.completedVideos
          (loadCourseProgress course progressData).progress.totalVideos) ∧
    (∀ (course : Course) (allProgress : List VideoProgress),
      course.videos = [] →
        (refreshCourseProgress course allProgress).progress.percentage = 0) := by
  refine ⟨fun course allProgress => ?_, fun course progressData => ?_,
    fun course allProgress h => ?_⟩
  · simp only [refreshCourseProgress]
    exact codePercentage_eq_spec _ _
  · simp only [loadCourseProgress]
    exact codePercentage_eq_spec _ _
  · simp [refreshCourseProgress, h]

/-- Concrete course with an empty video list, for the C3 witness. -/
def c3course : Course := ⟨"c3", "T", [], 0, none⟩

/-- Witness for C3: a course with no videos gets percentage 0. -/
theorem percentage_refines_spec_witness :
    (refreshCourseProgress c3course []).progress.percentage = 0 :=
  percentage_refines_spec.2.2 c3course [] rfl

/-- C8 (amended): when the course's progress records carry pairwise-distinct
`videoId`s all drawn from the course's video list, the derived
`completedVideos` count is bounded by `totalVideos`. -/
theorem completedVideos_le_totalVideos :
    ∀ (course : Course) (allProgress : List VideoProgress),
      ((allProgress.filter (fun p => p.courseId = course.id)).map
          (fun p => p.videoId)).Nodup →
      (∀ p ∈ allProgress.filter (fun p => p.courseId = course.id),
        p.videoId ∈ course.videos.map (fun v => v.id)) →
      (refreshCourseProgress course allProgress).progress.completedVideos ≤
        (refreshCourseProgress course allProgress).progress.totalVideos := by
  intro course allProgress hnd hsub
  simp only [refreshCourseProgress]
  set l := allProgress.filter (fun p => p.courseId = course.id) with hl
  set lc := l.filter (fun p => p.completed) with hlc
  have h1 : (lc.map (fun p => p.videoId)).Nodup :=
    hnd.sublist ((List.filter_sublist l).map _)
  have h2 : (lc.map (fun p => p.videoId)) ⊆ course.videos.map (fun v => v.id) := by
    intro x hx
    rcases List.mem_map.1 hx with ⟨p, hp, rfl⟩
    exact hsub p (List.mem_of_mem_filter hp)
  have h3 := (List.subperm_of_subset h1 h2).length_le
  simpa using h3

/-- Concrete course and records for the C8 witness. -/
def c8okCourse : Course := ⟨"c8", "T", [⟨"v1", 100⟩, ⟨"v2", 100⟩], 0, none⟩

/-- Concrete records for the C8 witness. -/
def c8okRecords : List VideoProgress := [⟨"v1", "c8", 100, 100, true, 0⟩]

/-- Witness for the amended C8 theorem. -/
theorem completedVideos_le_totalVideos_witness :
    (refreshCourseProgress c8okCourse c8okRecords).progress.completedVideos ≤
      (refreshCourseProgress c8okCourse c8okRecords).progress.totalVideos :=
  completedVideos_le_totalVideos c8okCourse c8okRecords (by decide) (by decide)

/-- Concrete course whose store holds completed records for videos outside
its video list, for the C8 counterexample. -/
def c8course : Course := ⟨"c8", "T", [⟨"v1", 100⟩], 0, none⟩

/-- Concrete records for the C8 counterexample: two completed records for
the course, neither of whose videos is in the course's list. -/
def c8records : List VideoProgress :=
  [⟨"v2", "c8", 100, 100, true, 0⟩, ⟨"v3", "c8", 100, 100, true, 1⟩]

/-- Counterexample to C8 as stated: with arbitrary store contents the
aggregation counts 2 completed records against a 1-video course, so
`completedVideos ≤ totalVideos` fails. -/
theorem completedVideos_exceeds_totalVideos :
    ¬ ((refreshCourseProgress c8course c8records).progress.completedVideos ≤
        (refreshCourseProgress c8course c8records).progress.totalVideos) := by
  simp [refreshCourseProgress, c8course, c8records]

/-- C2 (amended): a record produced by the rev-2 interval tick is marked
completed exactly under the 95%-watched rule; a record produced by rev-1
`saveProgress` is marked completed under the weaker
`currentTime ≥ duration − 10 OR currentTime/duration ≥ 0.95` rule; the spec
example `{currentTime: 96, duration: 100}` is completed and yields status
COMPLETED with progress 100. -/
theorem tick_completed_iff_95 :
    (∀ (v c : String) (ct d : ℚ) (now : ℤ),
      ((tickProgressRecord v c ct d now).completed = true ↔
        specCompleted95 ct d)) ∧
    (∀ (v c : String) (ct d : ℚ) (now : ℤ),
      ((saveProgressRecord v c ct d now).completed = true ↔
        (ct ≥ d - 10 ∨ ct / d ≥ 95 / 100))) ∧
    ((tickProgressRecord "w" "c" 96 100 0).completed = true ∧
      computeVideoStatus (some (tickProgressRecord "w" "c" 96 100 0)) =
        ⟨.completed, some 100, none⟩) := by
  refine ⟨fun v c ct d now => ?_, fun v c ct d now => ?_, ?_, ?_⟩
  · simp only [tickProgressRecord, decide_eq_true_eq, specCompleted95]
    constructor <;> intro h <;> linarith
  · simp [saveProgressRecord]
  · simp only [tickProgressRecord, decide_eq_true_eq]
    norm_num
  · simp [computeVideoStatus, tickProgressRecord]
    norm_num

/-- Counterexample to C2 as stated: rev-1 `saveProgress` marks
`{currentTime: 90, duration: 100}` completed through its
fewer-than-10-seconds-left disjunct although 90 < 95% of 100, so "completed
exactly when currentTime ≥ 0.95 × duration" fails. -/
theorem saveProgress_completed_below_95 :
    (saveProgressRecord "w" "c" 90 100 0).completed = true ∧
      ¬ specCompleted95 90 100 := by
  constructor
  · simp only [saveProgressRecord, Bool.or_eq_true, decide_eq_true_eq]
    left
    norm_num
  · unfold specCompleted95
    norm_num

/-- C5 (amended): for a record with `completed = false`, `currentTime > 0`
and positive `duration` (the only durations playback produces), `getVideo`
reports status IN_PROGRESS, progress `round(100 × currentTime / duration)`
with no clamping, and the record's `currentTime`. The positivity hypothesis
keeps the `ℚ` embedding of the division faithful to the source. -/
theorem getVideo_inProgress_unclamped :
    ∀ (r : VideoProgress), r.completed = false → 0 < r.currentTime →
      0 < r.duration →
      computeVideoStatus (some r) =
        ⟨.inProgress, some (round ((100 * r.currentTime) / r.duration)),
          some r.currentTime⟩ := by
  intro r h1 h2 h3
  have harg : r.currentTime / r.duration * 100 =
      100 * r.currentTime / r.duration := by
    ring
  simp [computeVideoStatus, h1, h2, harg]

/-- Concrete half-watched record for the C5 witness. -/
def c5okRecord : VideoProgress := ⟨"v", "c", 50, 100, false, 0⟩

/-- Witness for the amended C5 theorem. -/
theorem getVideo_inProgress_unclamped_witness :
    computeVideoStatus (some c5okRecord) =
      ⟨.inProgress,
        some (round ((100 * c5okRecord.currentTime) / c5okRecord.duration)),
        some c5okRecord.currentTime⟩ :=
  getVideo_inProgress_unclamped c5okRecord rfl (by norm_num [c5okRecord])
    (by norm_num [c5okRecord])

/-- Concrete record whose `currentTime` exceeds its `duration`, for the C5
counterexample. -/
def c5record : VideoProgress := ⟨"v", "c", 150, 100, false, 0⟩

/-- Counterexample to C5 as stated: the code computes progress 150 for a
record watched past its recorded duration, while the claim's clamped value
is 100 — no clamping to [0, 100] happens in `getVideo`. -/
theorem getVideo_progress_exceeds_100 :
    (computeVideoStatus (some c5record)).progress = some 150 ∧
      specProgressClamped c5record.currentTime c5record.duration = 100 ∧
      (computeVideoStatus (some c5record)).progress ≠
        some (specProgressClamped c5record.currentTime c5record.duration) := by
  have h1 : (computeVideoStatus (some c5record)).progress = some 150 := by
    simp [computeVideoStatus, c5record]
  have h2 : specProgressClamped c5record.currentTime c5record.duration = 100 := by
    simp [specProgressClamped, c5record]
  refine ⟨h1, h2, ?_⟩
  rw [h1, h2]
  decide

/-- C4 (amended): a failed store upsert inside the context
`updateVideoProgress` applies no partial effect — the whole application
state, in particular the parent course's `lastWatched`, is unchanged — but
the failure is not reported to the caller: the `catch` block only logs it
and the operation resolves normally. -/
theorem updateVideoProgress_failed_upsert_no_partial_effect :
    ∀ (p : VideoProgress) (now : ℤ) (s : AppState),
      updateVideoProgressCtx true p now s = (s, Except.ok ()) := by
  intro p now s
  rfl

/-- Concrete record for the C4 counterexample. -/
def c4record : VideoProgress := ⟨"v", "c", 10, 100, false, 5⟩

/-- Concrete application state for the C4 counterexample. -/
def c4state : AppState := ⟨[], [⟨"c", "T", [⟨"v", 100⟩], 0, none⟩]⟩

/-- Counterexample to C4 as stated: when the upsert fails, the operation
resolves with `.ok ()` instead of propagating an error, so the failure is
not reported to the caller. -/
theorem updateVideoProgress_failure_not_reported :
    (updateVideoProgressCtx true c4record 9 c4state).2 = Except.ok () ∧
      (Except.ok () : Except Unit Unit) ≠ Except.error () := by
  exact ⟨rfl, by simp⟩

/-- Concrete stored course for the C6 theorems. -/
def c6stored : Course := ⟨"c1", "Original", [], 0, none⟩

/-- Concrete duplicate-id course for the C6 theorems. -/
def c6dup : Course := ⟨"c1", "Replacement", [], 1, none⟩

/-- C6 (amended): the rev-2 `addCourse` rejects a course whose id already
exists, returning `false` and leaving the store unchanged; the rev-1
`addCourse` instead overwrites and returns `true`. This theorem states the
rev-2 half. -/
theorem addCourse2_rejects_duplicate :
    ∀ (store : List Course) (c : Course),
      (dbGetCourse store c.id).isSome = true →
      addCourseCtx2 store c = (store, false) := by
  intro store c h
  unfold addCourseCtx2
  rcases hg : dbGetCourse store c.id with _ | c'
  · rw [hg] at h
    simp at h
  · simp [hg]

/-- Witness for the amended C6 theorem. -/
theorem addCourse2_rejects_duplicate_witness :
    addCourseCtx2 [c6stored] c6dup = ([c6stored], false) :=
  addCourse2_rejects_duplicate [c6stored] c6dup (by decide)

/-- Counterexample to C6 as stated: the rev-1 `addCourse` (lines 184–202),
whose store insert is an IndexedDB `put`, overwrites the stored course with
the same id and reports success. -/
theorem addCourse1_overwrites_duplicate :
    addCourseCtx1 [c6stored] c6dup = ([c6dup], true) ∧ c6dup ≠ c6stored := by
  constructor
  · simp [addCourseCtx1, dbPutCourse, c6stored, c6dup]
  · decide

/-- C7 (amended): the Home page comparator orders every pair exactly by the
spec rule (timestamped before untimestamped, descending by `lastWatched`,
untimestamped ties broken by `createdAt` descending); the `refreshCourses`
comparator instead returns 0 on a pair of untimestamped courses, leaving
their incoming order in place. -/
theorem homeCompare_orders_by_recency :
    (∀ a b : Course, homeCourseCompare a b < 0 ↔ specCoursePrecedes a b) ∧
    (∀ a b : Course, a.lastWatched = none → b.lastWatched = none →
      refreshCourseCompare a b = 0) := by
  constructor
  · intro a b
    unfold homeCourseCompare specCoursePrecedes
    rcases ha : a.lastWatched with _ | ta <;>
      rcases hb : b.lastWatched with _ | tb <;> simp
  · intro a b ha hb
    unfold refreshCourseCompare
    rw [ha, hb]

/-- Concrete untimestamped course created first, for the C7 theorems. -/
def c7old : Course := ⟨"a", "A", [], 1, none⟩

/-- Concrete untimestamped course created later, for the C7 theorems. -/
def c7new : Course := ⟨"b", "B", [], 2, none⟩

/-- Witness for the amended C7 theorem. -/
theorem homeCompare_orders_by_recency_witness :
    refreshCourseCompare c7old c7new = 0 :=
  homeCompare_orders_by_recency.2 c7old c7new rfl rfl

/-- Counterexample to C7 as stated: sorting two untimestamped courses with
the `refreshCourses` comparator keeps the earlier-created course first,
although the claim's createdAt-descending tie-break requires the
later-created course first. -/
theorem refreshSort_keeps_untimestamped_order :
    refreshSortCourses [c7old, c7new] = [c7old, c7new] ∧
      specCoursePrecedes c7new c7old ∧ ¬ specCoursePrecedes c7old c7new := by
  refine ⟨?_, ?_, ?_⟩
  · simp [refreshSortCourses, List.insertionSort, List.orderedInsert,
      refreshCourseCompare, c7old, c7new]
  · simp [specCoursePrecedes, c7old, c7new]
  · simp [specCoursePrecedes, c7old, c7new]
